import Mathlib

/-!
Shallow embedding of `src/snr.py` (function `snr` and its inner line-shape
models `lorentzian` and `gaussian`).

Modelling conventions:
* numpy float arrays are modelled as `List ℚ`; float arithmetic is modelled
  as exact rational arithmetic.
* `np.argmin(np.abs(time_data - x))` is `argmin_abs`: the index of the first
  entry minimising the absolute distance to `x` (numpy's `argmin` returns the
  first occurrence of the minimum).
* Python slicing `a[i:j]` is `pySlice a i j` (end-exclusive, clamped).
* `scipy.optimize.curve_fit` is an external nonlinear solver; it is modelled
  as an oracle argument of type `CurveFit` (one oracle per model function,
  mirroring the two calls `curve_fit(lorentzian, ...)` and
  `curve_fit(gaussian, ...)`).  An oracle either returns a fitted parameter
  triple or fails (scipy raising an exception), which `snr` propagates.
* Python exceptions are the `SnrError` values of an `Except` result:
  `np.max` on an empty slice raises (`emptyMax`), a failed fit raises
  (`fitFailure`), `params[line_shape]` on an unknown key raises `KeyError`
  (`keyError`), and `max()/min()` of an empty noise window raise
  (`emptyNoise`).
* numpy float division of a nonzero (resp. zero) numerator by zero yields
  `±inf` (resp. `nan`) rather than raising; the returned scalar is therefore
  a `SnrValue`: `finite q`, `infinite`, or `nan`.
* The `plot` branch of the Python function only renders diagnostics and does
  not affect the returned value; it is not modelled.
* The real-valued line-shape models themselves (used by the claims about
  model shape) are embedded over `ℝ`, with `np.exp` as `Real.exp`.
-/

deriving instance DecidableEq for Except

namespace SnrModel

/-- Python slice `a[i:j]` on a list: end-exclusive, out-of-range indices
clamp, `i ≥ j` gives the empty list. -/
def pySlice (xs : List ℚ) (i j : Nat) : List ℚ :=
  (xs.take j).drop i

/-- Auxiliary for `argmin_abs`: index and value of the first minimum of
`|t - a|` over the list (numpy `argmin` keeps the earliest index on ties,
so the head wins with `≤`). -/
def argminAbsIV (a : ℚ) : List ℚ → Nat × ℚ
  | [] => (0, 0)
  | [t] => (0, |t - a|)
  | t :: t' :: ts =>
    if |t - a| ≤ (argminAbsIV a (t' :: ts)).2 then (0, |t - a|)
    else ((argminAbsIV a (t' :: ts)).1 + 1, (argminAbsIV a (t' :: ts)).2)

/-- Embedding of `np.argmin(np.abs(time_data - x))`: index of the first entry of
`time_data` closest to `x`. -/
def argmin_abs (time_data : List ℚ) (x : ℚ) : Nat :=
  (argminAbsIV x time_data).1

/-- Builtin/`np.max` over a nonempty sequence; `none` models the
`ValueError` raised on an empty one. -/
def listMax (xs : List ℚ) : Option ℚ :=
  xs.max?

/-- Builtin `min` over a nonempty sequence; `none` models the `ValueError`
raised on an empty one. -/
def listMin (xs : List ℚ) : Option ℚ :=
  xs.min?

/-- A fitted parameter triple `(max_pos, width, height)` as produced by
`curve_fit`. -/
structure FitParams where
  max_pos : ℚ
  width : ℚ
  height : ℚ
deriving DecidableEq, Repr

/-- Oracle type for one `curve_fit(model, x_data, y_data, p0=initial_params)`
call: takes the windowed x data, y data and the initial parameter guess, and
either converges to a parameter triple or fails. -/
def CurveFit : Type :=
  List ℚ → List ℚ → FitParams → Except Unit FitParams

/-- The Python exceptions the `snr` function can raise. -/
inductive SnrError where
  /-- The `ValueError` from `np.max` over an empty windowed signal. -/
  | emptyMax
  /-- The error raised when `curve_fit` fails to converge for the named model. -/
  | fitFailure (shape : String)
  /-- The `KeyError` from `params[line_shape]` on an unrecognised shape name. -/
  | keyError (shape : String)
  /-- The `ValueError` from `max()`/`min()` over an empty noise window. -/
  | emptyNoise
deriving DecidableEq, Repr

/-- The scalar the function returns: a finite float, `±inf` (nonzero
numerator divided by zero), or `nan` (zero divided by zero). -/
inductive SnrValue where
  | finite (q : ℚ)
  | infinite
  | nan
deriving DecidableEq, Repr

/-- Line 64-65: `window = (np.argmin(np.abs(time_data-time_range[0])),
np.argmin(np.abs(time_data-time_range[1])))`. -/
def window (time_data : List ℚ) (time_range : ℚ × ℚ) : Nat × Nat :=
  (argmin_abs time_data time_range.1, argmin_abs time_data time_range.2)

/-- Line 67: `x_data = time_data[window[0]:window[1]]`. -/
def x_data (time_data : List ℚ) (time_range : ℚ × ℚ) : List ℚ :=
  pySlice time_data (window time_data time_range).1 (window time_data time_range).2

/-- Line 68: `y_data = signal_data[window[0]:window[1]]`. -/
def y_data (signal_data time_data : List ℚ) (time_range : ℚ × ℚ) : List ℚ :=
  pySlice signal_data (window time_data time_range).1 (window time_data time_range).2

/-- Line 88: `initial_params = (np.average(time_range), 1, np.max(y_data))`
(given the already-computed maximum of the windowed signal). -/
def initial_params (time_range : ℚ × ℚ) (ymax : ℚ) : FitParams :=
  ⟨(time_range.1 + time_range.2) / 2, 1, ymax⟩

/-- Line 92: `params[line_shape]` where
`params = {'lorentzian': ..., 'gaussian': ...}`; `none` is the `KeyError`. -/
def selectParams (pL pG : FitParams) (line_shape : String) : Option FitParams :=
  (([("lorentzian", pL), ("gaussian", pG)] : List (String × FitParams))).lookup line_shape

/-- Lines 95-98: the noise window
`noise_data[np.argmin(np.abs(time_data-begin)):np.argmin(np.abs(time_data-end))]`
with `begin = max_pos - width*10` and `end = max_pos + width*10`, indices
taken over the full un-windowed `time_data`.  `width` is the
already-absolute-valued fitted width. -/
def noiseWindow (time_data noise_data : List ℚ) (max_pos width : ℚ) : List ℚ :=
  pySlice noise_data
    (argmin_abs time_data (max_pos - width * 10))
    (argmin_abs time_data (max_pos + width * 10))

/-- Lines 100-102: `signal = height`, `noise = max(...) - min(...)`,
`snr = (sub_zero+1)*signal/noise`, with numpy float semantics for division
by zero (`±inf` for nonzero numerator, `nan` for `0/0`). -/
def ratioValue (sub_zero : Bool) (height noise : ℚ) : SnrValue :=
  if noise = 0 then
    if height = 0 then .nan else .infinite
  else
    .finite ((if sub_zero then 2 else 1) * height / noise)

/-- The `snr` function of `src/snr.py` (`plot=False` path; the plot branch
has no effect on the returned value).  `fit_lorentzian` and `fit_gaussian`
model the two `curve_fit` calls on lines 89-90. -/
def snr (fit_lorentzian fit_gaussian : CurveFit)
    (time_data signal_data noise_data : List ℚ)
    (time_range : ℚ × ℚ) (line_shape : String) (sub_zero : Bool) :
    Except SnrError SnrValue :=
  match listMax (y_data signal_data time_data time_range) with
  | none => .error .emptyMax
  | some ymax =>
    match fit_lorentzian (x_data time_data time_range)
        (y_data signal_data time_data time_range)
        (initial_params time_range ymax) with
    | .error _ => .error (.fitFailure "lorentzian")
    | .ok pL =>
      match fit_gaussian (x_data time_data time_range)
          (y_data signal_data time_data time_range)
          (initial_params time_range ymax) with
      | .error _ => .error (.fitFailure "gaussian")
      | .ok pG =>
        match selectParams pL pG line_shape with
        | none => .error (.keyError line_shape)
        | some p =>
          match listMax (noiseWindow time_data noise_data p.max_pos |p.width|),
              listMin (noiseWindow time_data noise_data p.max_pos |p.width|) with
          | some nmax, some nmin => .ok (ratioValue sub_zero p.height (nmax - nmin))
          | _, _ => .error .emptyNoise

/-- Lines 72-78: the Lorentzian line shape
`height/(1+np.square(2*(max_pos-x)/width))`, per scalar point. -/
noncomputable def lorentzian (x max_pos width height : ℝ) : ℝ :=
  height / (1 + (2 * (max_pos - x) / width) ^ 2)

/-- Lines 80-86: the Gaussian line shape
`height * np.exp(-0.693*np.square(2*(max_pos-x)/width))`, per scalar
point. -/
noncomputable def gaussian (x max_pos width height : ℝ) : ℝ :=
  height * Real.exp (-(0.693) * (2 * (max_pos - x) / width) ^ 2)

/-- A solver oracle that always converges to the given triple (used to
instantiate runs on concrete inputs). -/
def constFit (p : FitParams) : CurveFit :=
  fun _x _y _p0 => .ok p

/-- A solver oracle that always fails to converge. -/
def failFit : CurveFit :=
  fun _x _y _p0 => .error ()

/-! ### Basic facts about `argminAbsIV` -/

/-- On a nonempty list, the auxiliary returns an in-range index together with
the distance value attained at that index. -/
theorem argminAbsIV_spec (a : ℚ) :
    ∀ ts : List ℚ, ts ≠ [] →
      ∃ h : (argminAbsIV a ts).1 < ts.length,
        (argminAbsIV a ts).2 = |ts.get ⟨(argminAbsIV a ts).1, h⟩ - a|
  | [], h => absurd rfl h
  | [t], _ => ⟨Nat.one_pos, by simp [argminAbsIV]⟩
  | t :: t' :: ts, _ => by
    rcases argminAbsIV_spec a (t' :: ts) (List.cons_ne_nil _ _) with ⟨hlt, hval⟩
    by_cases hc : |t - a| ≤ (argminAbsIV a (t' :: ts)).2
    · simp only [argminAbsIV, if_pos hc]
      exact ⟨Nat.succ_pos _, by simp⟩
    · simp only [argminAbsIV, if_neg hc]
      exact ⟨Nat.succ_lt_succ hlt, by simpa using hval⟩

/-- The value tracked by the auxiliary is a lower bound for the distance at
every index. -/
theorem argminAbsIV_min (a : ℚ) :
    ∀ (ts : List ℚ) (j : Nat) (hj : j < ts.length),
      (argminAbsIV a ts).2 ≤ |ts.get ⟨j, hj⟩ - a|
  | [], _, hj => absurd hj (by simp)
  | [t], 0, _ => by simp [argminAbsIV]
  | [t], j+1, hj => absurd hj (by simp)
  | t :: t' :: ts, j, hj => by
    by_cases hc : |t - a| ≤ (argminAbsIV a (t' :: ts)).2
    · simp only [argminAbsIV, if_pos hc]
      match j with
      | 0 => simp
      | j+1 =>
        exact le_trans hc
          (by simpa using argminAbsIV_min a (t' :: ts) j (by simpa using hj))
    · simp only [argminAbsIV, if_neg hc]
      match j with
      | 0 => simpa using le_of_lt (lt_of_not_le hc)
      | j+1 => simpa using argminAbsIV_min a (t' :: ts) j (by simpa using hj)

/-- Strictly smaller indices than the returned one have strictly larger
distance: the auxiliary returns the first minimiser, as numpy's `argmin`
does. -/
theorem argminAbsIV_first (a : ℚ) :
    ∀ (ts : List ℚ) (j : Nat) (hj : j < ts.length),
      j < (argminAbsIV a ts).1 →
      (argminAbsIV a ts).2 < |ts.get ⟨j, hj⟩ - a|
  | [], _, hj, _ => absurd hj (by simp)
  | [t], j, _, hfst => by simp [argminAbsIV] at hfst
  | t :: t' :: ts, j, hj, hfst => by
    by_cases hc : |t - a| ≤ (argminAbsIV a (t' :: ts)).2
    · simp only [argminAbsIV, if_pos hc] at hfst
      exact absurd hfst (Nat.not_lt_zero _)
    · simp only [argminAbsIV, if_neg hc] at hfst ⊢
      match j, hfst with
      | 0, _ => simpa using lt_of_not_le hc
      | j+1, hfst =>
        simpa using
          argminAbsIV_first a (t' :: ts) j (by simpa using hj)
            (Nat.lt_of_succ_lt_succ hfst)

/-- Below the first time point, the nearest index is the first one. -/
theorem argmin_abs_of_le_head (a t : ℚ) (rest : List ℚ)
    (hmono : List.Pairwise (· < ·) (t :: rest)) (ha : a ≤ t) :
    argmin_abs (t :: rest) a = 0 := by
  match rest with
  | [] => simp [argmin_abs, argminAbsIV]
  | t' :: ts =>
    rcases argminAbsIV_spec a (t' :: ts) (List.cons_ne_nil _ _) with ⟨hlt, hval⟩
    have hmem : (t' :: ts).get ⟨(argminAbsIV a (t' :: ts)).1, hlt⟩ ∈ t' :: ts :=
      List.get_mem _ _ _
    have htx : t < (t' :: ts).get ⟨(argminAbsIV a (t' :: ts)).1, hlt⟩ :=
      (List.pairwise_cons.1 hmono).1 _ hmem
    have hc : |t - a| ≤ (argminAbsIV a (t' :: ts)).2 := by
      rw [hval, abs_of_nonneg (by linarith), abs_of_nonneg (by linarith)]
      linarith
    simp [argmin_abs, argminAbsIV, if_pos hc]

/-- Above the last time point, the auxiliary selects the last index and
attains the distance to the last entry. -/
theorem argminAbsIV_of_getLast_le (a : ℚ) :
    ∀ (ts : List ℚ) (hne : ts ≠ []), List.Pairwise (· < ·) ts →
      ts.getLast hne ≤ a →
      argminAbsIV a ts = (ts.length - 1, |ts.getLast hne - a|)
  | [], hne, _, _ => absurd rfl hne
  | [t], _, _, _ => by simp [argminAbsIV]
  | t :: t' :: ts, _, hmono, hlast => by
    have hne' : t' :: ts ≠ [] := List.cons_ne_nil _ _
    have hlast' : (t :: t' :: ts).getLast (List.cons_ne_nil _ _) =
        (t' :: ts).getLast hne' := List.getLast_cons hne'
    have ih := argminAbsIV_of_getLast_le a (t' :: ts) hne'
      (List.pairwise_cons.1 hmono).2 (hlast' ▸ hlast)
    have hmem : (t' :: ts).getLast hne' ∈ t' :: ts := List.getLast_mem hne'
    have ht : t < (t' :: ts).getLast hne' := (List.pairwise_cons.1 hmono).1 _ hmem
    have hta : t ≤ a := by
      have := hlast' ▸ hlast
      linarith
    have hc : ¬ |t - a| ≤ (argminAbsIV a (t' :: ts)).2 := by
      rw [ih]
      dsimp only
      rw [abs_of_nonpos (by linarith), abs_of_nonpos (by linarith)]
      push_neg
      linarith [hlast' ▸ hlast]
    rw [ih] at hc
    simp only [argminAbsIV, ih, if_neg hc, List.length_cons, hlast']
    constructor

/-- If the second point is strictly closer to `x` than the first, then `x`
lies strictly beyond their midpoint. -/
theorem midpoint_lt_of_abs_lt {p q x : ℚ} (hpq : p < q) (h : |q - x| < |p - x|) :
    p + q < 2 * x := by
  rcases abs_cases (q - x) with ⟨h1, h1'⟩ | ⟨h1, h1'⟩ <;>
    rcases abs_cases (p - x) with ⟨h2, h2'⟩ | ⟨h2, h2'⟩ <;>
      rw [h1, h2] at h <;> linarith

/-- If the first point is at least as close to `x` as the second, then `x`
lies at or below their midpoint. -/
theorem le_midpoint_of_abs_le {p q x : ℚ} (hpq : p < q) (h : |p - x| ≤ |q - x|) :
    2 * x ≤ p + q := by
  rcases abs_cases (q - x) with ⟨h1, h1'⟩ | ⟨h1, h1'⟩ <;>
    rcases abs_cases (p - x) with ⟨h2, h2'⟩ | ⟨h2, h2'⟩ <;>
      rw [h1, h2] at h <;> linarith

/-- On a strictly increasing list the nearest index is monotone in the
target value. -/
theorem argmin_abs_mono (ts : List ℚ) (hne : ts ≠ [])
    (hmono : List.Pairwise (· < ·) ts) {a b : ℚ} (hab : a ≤ b) :
    argmin_abs ts a ≤ argmin_abs ts b := by
  by_contra hcon
  push_neg at hcon
  obtain ⟨hia, hva⟩ := argminAbsIV_spec a ts hne
  obtain ⟨hib, hvb⟩ := argminAbsIV_spec b ts hne
  have hj_lt : argmin_abs ts b < ts.length := lt_trans hcon hia
  have hfirst := argminAbsIV_first a ts (argmin_abs ts b) hj_lt hcon
  rw [hva] at hfirst
  have hmin := argminAbsIV_min b ts (argmin_abs ts a) hia
  rw [hvb] at hmin
  have hij : ts.get ⟨argmin_abs ts b, hj_lt⟩ < ts.get ⟨argmin_abs ts a, hia⟩ :=
    List.pairwise_iff_get.1 hmono ⟨argmin_abs ts b, hj_lt⟩ ⟨argmin_abs ts a, hia⟩ hcon
  have h1 := midpoint_lt_of_abs_lt hij hfirst
  have h2 := le_midpoint_of_abs_le hij hmin
  linarith

/-! ### Slicing and max/min facts -/

/-- Characterisation of the Python slice `a[i:j]`: entry `k` of the slice is
entry `i + k` of the original, present exactly when `i + k < j` (end
exclusive) and in range. -/
theorem pySlice_getElem? (xs : List ℚ) (i j k : Nat) :
    (pySlice xs i j)[k]? = if i + k < j then xs[i + k]? else none := by
  rw [pySlice, List.getElem?_drop, List.getElem?_take]

/-- A slice with start at or beyond the stop index is empty. -/
theorem pySlice_eq_nil (xs : List ℚ) {i j : Nat} (h : j ≤ i) :
    pySlice xs i j = [] := by
  apply List.drop_eq_nil_of_le
  rw [List.length_take]
  exact le_trans (min_le_left _ _) h

/-- The value of `listMax` is an element of the list that bounds it from above. -/
theorem rat_le_antisymm_inst : Std.Antisymm (fun x1 x2 : ℚ => x1 ≤ x2) :=
  ⟨fun h h' => le_antisymm h h'⟩

theorem listMax_spec {xs : List ℚ} {m : ℚ} (h : listMax xs = some m) :
    m ∈ xs ∧ ∀ b ∈ xs, b ≤ m :=
  (@List.max?_eq_some_iff ℚ m _ _ rat_le_antisymm_inst (fun _ => le_refl _)
    (fun _ _ => max_choice _ _) (fun _ _ _ => max_le_iff) xs).1 h

/-- The value of `listMin` is an element of the list that bounds it from below. -/
theorem listMin_spec {xs : List ℚ} {m : ℚ} (h : listMin xs = some m) :
    m ∈ xs ∧ ∀ b ∈ xs, m ≤ b :=
  (@List.min?_eq_some_iff ℚ m _ _ rat_le_antisymm_inst (fun _ => le_refl _)
    (fun _ _ => min_choice _ _) (fun _ _ _ => le_min_iff) xs).1 h

/-- On a constant nonempty list, max and min both return the constant. -/
theorem listMax_listMin_of_const {xs : List ℚ} (hne : xs ≠ []) {c : ℚ}
    (hc : ∀ x ∈ xs, x = c) : listMax xs = some c ∧ listMin xs = some c := by
  have hmem : c ∈ xs := by
    match xs, hne with
    | x :: xs, _ => exact (hc x (List.mem_cons_self _ _)) ▸ List.mem_cons_self _ _
  constructor
  · exact (@List.max?_eq_some_iff ℚ c _ _ rat_le_antisymm_inst (fun _ => le_refl _)
      (fun _ _ => max_choice _ _) (fun _ _ _ => max_le_iff) xs).2
      ⟨hmem, fun b hb => le_of_eq (hc b hb)⟩
  · exact (@List.min?_eq_some_iff ℚ c _ _ rat_le_antisymm_inst (fun _ => le_refl _)
      (fun _ _ => min_choice _ _) (fun _ _ _ => le_min_iff) xs).2
      ⟨hmem, fun b hb => ge_of_eq (hc b hb)⟩

/-! ### Evaluating a successful run of `snr` -/

/-- Unfolding of `snr` on a run where the windowed signal is nonempty, both
fits converge, the shape name is recognised, and the noise window is
nonempty: the result is the ratio value of the selected height and the
peak-to-peak noise amplitude. -/
theorem snr_run (fitL fitG : CurveFit) (td sd nd : List ℚ) (tr : ℚ × ℚ)
    (shape : String) (z : Bool) {ymax : ℚ} {pL pG p : FitParams} {nmax nmin : ℚ}
    (hy : listMax (y_data sd td tr) = some ymax)
    (hL : fitL (x_data td tr) (y_data sd td tr) (initial_params tr ymax) = .ok pL)
    (hG : fitG (x_data td tr) (y_data sd td tr) (initial_params tr ymax) = .ok pG)
    (hsel : selectParams pL pG shape = some p)
    (hmax : listMax (noiseWindow td nd p.max_pos |p.width|) = some nmax)
    (hmin : listMin (noiseWindow td nd p.max_pos |p.width|) = some nmin) :
    snr fitL fitG td sd nd tr shape z = .ok (ratioValue z p.height (nmax - nmin)) := by
  simp only [snr, hy, hL, hG, hsel, hmax, hmin]

/-- Unfolding of `snr` up to an empty noise window: the `max()` call raises. -/
theorem snr_run_emptyNoise (fitL fitG : CurveFit) (td sd nd : List ℚ) (tr : ℚ × ℚ)
    (shape : String) (z : Bool) {ymax : ℚ} {pL pG p : FitParams}
    (hy : listMax (y_data sd td tr) = some ymax)
    (hL : fitL (x_data td tr) (y_data sd td tr) (initial_params tr ymax) = .ok pL)
    (hG : fitG (x_data td tr) (y_data sd td tr) (initial_params tr ymax) = .ok pG)
    (hsel : selectParams pL pG shape = some p)
    (hnw : noiseWindow td nd p.max_pos |p.width| = []) :
    snr fitL fitG td sd nd tr shape z = .error .emptyNoise := by
  simp only [snr, hy, hL, hG, hsel, hnw]
  rfl

/-! ### Numeric bound for the Gaussian half-max property -/

/-- The value `exp (-0.693)` is within `10⁻⁴` of `1/2` (the source writes the FWHM
constant `ln 2 ≈ 0.693` as a truncated literal). -/
theorem exp_neg_693_near_half : |Real.exp (-(0.693 : ℝ)) - 1 / 2| ≤ 1 / 10000 := by
  have hgt := Real.log_two_gt_d9
  have hlt := Real.log_two_lt_d9
  have hδl : (0.0001471803 : ℝ) ≤ Real.log 2 - 0.693 := by norm_num at hgt ⊢; linarith
  have hδu : Real.log 2 - 0.693 ≤ (0.0001471808 : ℝ) := by norm_num at hlt ⊢; linarith
  have h1 : Real.exp (-(0.693 : ℝ)) = Real.exp (Real.log 2 - 0.693) / 2 := by
    have h2 : (-(0.693 : ℝ)) = (Real.log 2 - 0.693) - Real.log 2 := by ring
    rw [h2, Real.exp_sub, Real.exp_log (by norm_num : (0 : ℝ) < 2)]
  have hlow : 1 + (Real.log 2 - 0.693) ≤ Real.exp (Real.log 2 - 0.693) := by
    have := Real.add_one_le_exp (Real.log 2 - 0.693)
    linarith
  have hup : Real.exp (Real.log 2 - 0.693) * (1 - (Real.log 2 - 0.693)) ≤ 1 := by
    have h2 := Real.add_one_le_exp (-(Real.log 2 - 0.693))
    have h3 : Real.exp (-(Real.log 2 - 0.693)) * Real.exp (Real.log 2 - 0.693) = 1 := by
      rw [← Real.exp_add]; simp
    nlinarith [Real.exp_pos (Real.log 2 - 0.693), Real.exp_pos (-(Real.log 2 - 0.693))]
  rw [h1, abs_le]
  constructor
  · nlinarith
  · nlinarith [Real.exp_pos (Real.log 2 - 0.693)]

/-- C7: for both shape functions, the model evaluated at `x = center` equals
exactly the `height` parameter, for every valid (nonzero) width and every
height. -/
theorem model_height_at_center (c w h : ℝ) (hw : w ≠ 0) :
    lorentzian c c w h = h ∧ gaussian c c w h = h := by
  constructor
  · simp [lorentzian]
  · simp [gaussian]

/-- Witness for `model_height_at_center` at `c = 0`, `w = 1`, `h = 5`. -/
theorem model_height_at_center_witness :
    (1 : ℝ) ≠ 0 ∧ lorentzian 0 0 1 5 = 5 ∧ gaussian 0 0 1 5 = 5 :=
  ⟨one_ne_zero, (model_height_at_center 0 1 5 one_ne_zero).1,
    (model_height_at_center 0 1 5 one_ne_zero).2⟩

/-- C8: at `x = center + width/2` the Lorentzian attains exactly `height/2`,
and the Gaussian attains `height/2` up to the `10⁻⁴`-relative tolerance
induced by the truncated constant `0.693 ≈ ln 2`: `width` is the full width
at half maximum. -/
theorem model_half_max_at_half_width (c w h : ℝ) (hw : w ≠ 0) :
    lorentzian (c + w / 2) c w h = h / 2 ∧
    |gaussian (c + w / 2) c w h - h / 2| ≤ |h| / 10000 := by
  have harg : 2 * (c - (c + w / 2)) / w = -1 := by
    field_simp
  constructor
  · rw [lorentzian, harg]
    norm_num
  · rw [gaussian, harg, neg_one_sq, mul_one]
    have hb := exp_neg_693_near_half
    calc |h * Real.exp (-(0.693 : ℝ)) - h / 2|
        = |h| * |Real.exp (-(0.693 : ℝ)) - 1 / 2| := by
          rw [← abs_mul]
          ring_nf
      _ ≤ |h| * (1 / 10000) :=
          mul_le_mul_of_nonneg_left hb (abs_nonneg h)
      _ = |h| / 10000 := by ring

/-- Witness for `model_half_max_at_half_width` at `c = 0`, `w = 1`,
`h = 6`. -/
theorem model_half_max_at_half_width_witness :
    (1 : ℝ) ≠ 0 ∧ lorentzian (0 + 1 / 2) 0 1 6 = 6 / 2 ∧
    |gaussian (0 + 1 / 2) 0 1 6 - 6 / 2| ≤ |(6 : ℝ)| / 10000 :=
  ⟨one_ne_zero, (model_half_max_at_half_width 0 1 6 one_ne_zero).1,
    (model_half_max_at_half_width 0 1 6 one_ne_zero).2⟩

/-- C9: both shape functions take the same value at `width` and `-width`
everywhere (the width enters only through an even power), so the models are
invariant under the sign of the fitted width. -/
theorem model_width_sign_invariance (x c w h : ℝ) :
    lorentzian x c w h = lorentzian x c (-w) h ∧
    gaussian x c w h = gaussian x c (-w) h := by
  constructor
  · simp [lorentzian, div_neg, neg_sq]
  · simp [gaussian, div_neg, neg_sq]

/-! ### Claims about the `snr` pipeline -/

/-- C1: whenever both fits succeed, the shape lookup succeeds and the noise
window is nonempty with nonzero peak-to-peak amplitude, the returned value is
`(2 if sub_zero else 1) * height / (max - min)` of the noise-window slice;
in particular the result with `sub_zero = true` is exactly twice the result
with `sub_zero = false`. -/
theorem snr_ratio_scaling (fitL fitG : CurveFit) (td sd nd : List ℚ)
    (tr : ℚ × ℚ) (shape : String) {ymax : ℚ} {pL pG p : FitParams}
    {nmax nmin : ℚ}
    (hy : listMax (y_data sd td tr) = some ymax)
    (hL : fitL (x_data td tr) (y_data sd td tr) (initial_params tr ymax) = .ok pL)
    (hG : fitG (x_data td tr) (y_data sd td tr) (initial_params tr ymax) = .ok pG)
    (hsel : selectParams pL pG shape = some p)
    (hmax : listMax (noiseWindow td nd p.max_pos |p.width|) = some nmax)
    (hmin : listMin (noiseWindow td nd p.max_pos |p.width|) = some nmin)
    (hnz : nmax - nmin ≠ 0) :
    (∀ z : Bool, snr fitL fitG td sd nd tr shape z =
      .ok (.finite ((if z then 2 else 1) * p.height / (nmax - nmin)))) ∧
    snr fitL fitG td sd nd tr shape true =
      .ok (.finite (2 * (1 * p.height / (nmax - nmin)))) ∧
    snr fitL fitG td sd nd tr shape false =
      .ok (.finite (1 * p.height / (nmax - nmin))) := by
  have hrun : ∀ z : Bool, snr fitL fitG td sd nd tr shape z =
      .ok (ratioValue z p.height (nmax - nmin)) :=
    fun z => snr_run fitL fitG td sd nd tr shape z hy hL hG hsel hmax hmin
  have hval : ∀ z : Bool, ratioValue z p.height (nmax - nmin) =
      .finite ((if z then 2 else 1) * p.height / (nmax - nmin)) := by
    intro z
    rw [ratioValue, if_neg hnz]
  refine ⟨fun z => by rw [hrun z, hval z], ?_, ?_⟩
  · rw [hrun true, hval true]
    have e2 : ((if true then 2 else 1 : ℚ)) * p.height / (nmax - nmin) =
        2 * (1 * p.height / (nmax - nmin)) := by
      simp [mul_div_assoc]
    rw [e2]
  · rw [hrun false, hval false]
    simp

/-- Witness for `snr_ratio_scaling` on a concrete run: fitted height 5,
noise amplitude 1, so SNR is 10 with `sub_zero` and 5 without. -/
theorem snr_ratio_scaling_witness :
    snr (constFit ⟨2, 1, 5⟩) (constFit ⟨2, 1, 5⟩) [0, 1, 2, 3, 4]
      [0, 1, 5, 1, 0] [0, 1, 0, 1, 0] (1, 4) "gaussian" true =
        .ok (.finite 10) ∧
    snr (constFit ⟨2, 1, 5⟩) (constFit ⟨2, 1, 5⟩) [0, 1, 2, 3, 4]
      [0, 1, 5, 1, 0] [0, 1, 0, 1, 0] (1, 4) "gaussian" false =
        .ok (.finite 5) := by
  have h := @snr_ratio_scaling (constFit ⟨2, 1, 5⟩) (constFit ⟨2, 1, 5⟩)
    [0, 1, 2, 3, 4] [0, 1, 5, 1, 0] [0, 1, 0, 1, 0] (1, 4) "gaussian"
    5 ⟨2, 1, 5⟩ ⟨2, 1, 5⟩ ⟨2, 1, 5⟩ 1 0
    (by with_unfolding_all decide) rfl rfl rfl
    (by with_unfolding_all decide) (by with_unfolding_all decide)
    (by with_unfolding_all decide)
  refine ⟨?_, ?_⟩
  · rw [h.1 true]
    with_unfolding_all decide
  · rw [h.1 false]
    with_unfolding_all decide

/-- C2: on a strictly increasing time array, the window index for a bound is
in range and is an index of a time entry closest to that bound; bounds at or
below the first time clamp to index `0`, bounds at or beyond the last time
clamp to the last index; and the fitting data is the end-exclusive slice of
the signal between the two window indices. -/
theorem snr_windowing (ts : List ℚ) (hne : ts ≠ [])
    (hmono : List.Pairwise (· < ·) ts) (a : ℚ) :
    (argmin_abs ts a < ts.length) ∧
    (∀ (hi : argmin_abs ts a < ts.length) (j : Nat) (hj : j < ts.length),
      |ts.get ⟨argmin_abs ts a, hi⟩ - a| ≤ |ts.get ⟨j, hj⟩ - a|) ∧
    (∀ h0 : 0 < ts.length, a ≤ ts.get ⟨0, h0⟩ → argmin_abs ts a = 0) ∧
    (ts.getLast hne ≤ a → argmin_abs ts a = ts.length - 1) ∧
    (∀ (sig : List ℚ) (tr : ℚ × ℚ),
      y_data sig ts tr = pySlice sig (argmin_abs ts tr.1) (argmin_abs ts tr.2) ∧
      ∀ k : Nat, (y_data sig ts tr)[k]? =
        if argmin_abs ts tr.1 + k < argmin_abs ts tr.2 then
          sig[argmin_abs ts tr.1 + k]? else none) := by
  obtain ⟨hlt, hval⟩ := argminAbsIV_spec a ts hne
  refine ⟨hlt, ?_, ?_, ?_, ?_⟩
  · intro hi j hj
    have hget : ts.get ⟨argmin_abs ts a, hi⟩ =
        ts.get ⟨(argminAbsIV a ts).1, hlt⟩ := rfl
    rw [hget, ← hval]
    exact argminAbsIV_min a ts j hj
  · intro h0 hhead
    match ts, hne with
    | t :: rest, _ =>
      exact argmin_abs_of_le_head a t rest hmono hhead
  · intro hlast
    have := argminAbsIV_of_getLast_le a ts hne hmono hlast
    rw [argmin_abs, this]
  · intro sig tr
    refine ⟨rfl, fun k => ?_⟩
    exact pySlice_getElem? sig (argmin_abs ts tr.1) (argmin_abs ts tr.2) k

/-- Witness for `snr_windowing`: on `[0, 1, 2, 3]` the bound `10` clamps to
the last index `3`, the bound `-5` clamps to index `0`, and `1.2` maps to
the nearest index `1`. -/
theorem snr_windowing_witness :
    argmin_abs [0, 1, 2, 3] (10 : ℚ) = 3 ∧
    argmin_abs [0, 1, 2, 3] (-5 : ℚ) = 0 ∧
    argmin_abs [0, 1, 2, 3] (6/5 : ℚ) < 4 := by
  refine ⟨?_, ?_, ?_⟩
  · exact (snr_windowing [0, 1, 2, 3] (by decide)
      (by with_unfolding_all decide) 10).2.2.2.1 (by with_unfolding_all decide)
  · exact (snr_windowing [0, 1, 2, 3] (by decide)
      (by with_unfolding_all decide) (-5)).2.2.1 (by decide)
      (by with_unfolding_all decide)
  · exact (snr_windowing [0, 1, 2, 3] (by decide)
      (by with_unfolding_all decide) (6/5)).1

/-- C3: when the selected fit yields parameters `p`, the noise measurement
window is the slice of `noise_data` between the nearest indices (computed on
the full, un-windowed time array) of `max_pos - |width| * 10` and
`max_pos + |width| * 10`, and the result is determined by that slice; the
two indices are nearest-index mappings of the window bounds. -/
theorem snr_noise_window_derivation (fitL fitG : CurveFit) (td sd nd : List ℚ)
    (tr : ℚ × ℚ) (shape : String) (z : Bool) {ymax : ℚ} {pL pG p : FitParams}
    (hy : listMax (y_data sd td tr) = some ymax)
    (hL : fitL (x_data td tr) (y_data sd td tr) (initial_params tr ymax) = .ok pL)
    (hG : fitG (x_data td tr) (y_data sd td tr) (initial_params tr ymax) = .ok pG)
    (hsel : selectParams pL pG shape = some p) :
    (snr fitL fitG td sd nd tr shape z =
      match
        listMax (pySlice nd (argmin_abs td (p.max_pos - |p.width| * 10))
          (argmin_abs td (p.max_pos + |p.width| * 10))),
        listMin (pySlice nd (argmin_abs td (p.max_pos - |p.width| * 10))
          (argmin_abs td (p.max_pos + |p.width| * 10))) with
      | some nmax, some nmin => .ok (ratioValue z p.height (nmax - nmin))
      | _, _ => .error .emptyNoise) ∧
    (∀ (hi : argmin_abs td (p.max_pos - |p.width| * 10) < td.length)
        (j : Nat) (hj : j < td.length),
      |td.get ⟨argmin_abs td (p.max_pos - |p.width| * 10), hi⟩ -
          (p.max_pos - |p.width| * 10)| ≤
        |td.get ⟨j, hj⟩ - (p.max_pos - |p.width| * 10)|) ∧
    (∀ (hi : argmin_abs td (p.max_pos + |p.width| * 10) < td.length)
        (j : Nat) (hj : j < td.length),
      |td.get ⟨argmin_abs td (p.max_pos + |p.width| * 10), hi⟩ -
          (p.max_pos + |p.width| * 10)| ≤
        |td.get ⟨j, hj⟩ - (p.max_pos + |p.width| * 10)|) := by
  refine ⟨?_, ?_, ?_⟩
  · simp only [snr, hy, hL, hG, hsel, noiseWindow]
  · intro hi j hj
    have hne : td ≠ [] := List.ne_nil_of_length_pos (lt_of_le_of_lt (Nat.zero_le _) hi)
    obtain ⟨hlt, hval⟩ := argminAbsIV_spec (p.max_pos - |p.width| * 10) td hne
    have hget : td.get ⟨argmin_abs td (p.max_pos - |p.width| * 10), hi⟩ =
        td.get ⟨(argminAbsIV (p.max_pos - |p.width| * 10) td).1, hlt⟩ := rfl
    rw [hget, ← hval]
    exact argminAbsIV_min _ td j hj
  · intro hi j hj
    have hne : td ≠ [] := List.ne_nil_of_length_pos (lt_of_le_of_lt (Nat.zero_le _) hi)
    obtain ⟨hlt, hval⟩ := argminAbsIV_spec (p.max_pos + |p.width| * 10) td hne
    have hget : td.get ⟨argmin_abs td (p.max_pos + |p.width| * 10), hi⟩ =
        td.get ⟨(argminAbsIV (p.max_pos + |p.width| * 10) td).1, hlt⟩ := rfl
    rw [hget, ← hval]
    exact argminAbsIV_min _ td j hj

/-- Witness for `snr_noise_window_derivation` on a concrete run
with the Lorentzian selected: width 1
gives the noise window `[2 - 10, 2 + 10]`, which clamps to the whole noise
trace, so the slice is `noise_data[0:4]`. -/
theorem snr_noise_window_derivation_witness :
    snr (constFit ⟨2, 1, 5⟩) (constFit ⟨2, 1, 5⟩) [0, 1, 2, 3, 4]
      [0, 1, 5, 1, 0] [0, 3, 0, 2, 0] (1, 4) "lorentzian" true =
      .ok (.finite (10 / 3)) := by
  have h := (@snr_noise_window_derivation (constFit ⟨2, 1, 5⟩)
    (constFit ⟨2, 1, 5⟩) [0, 1, 2, 3, 4] [0, 1, 5, 1, 0] [0, 3, 0, 2, 0]
    (1, 4) "lorentzian" true 5 ⟨2, 1, 5⟩ ⟨2, 1, 5⟩ ⟨2, 1, 5⟩
    (by with_unfolding_all decide) rfl rfl rfl).1
  rw [h]
  with_unfolding_all decide

/-- C4 counterexample: with `time_range = (2, 1)` (start greater than end)
on a strictly increasing trace, the function does not raise any
invalid-range error: it fails with the `ValueError` of `np.max` over the
empty windowed signal (the source defines no `InvalidRangeError` and
performs no range validation). -/
theorem snr_invalid_range_counterexample :
    snr (constFit ⟨2, 1, 5⟩) (constFit ⟨2, 1, 5⟩) [0, 1, 2, 3, 4]
      [0, 1, 5, 1, 0] [0, 1, 0, 1, 0] (2, 1) "gaussian" true =
      .error .emptyMax := by
  with_unfolding_all decide

/-- C4 (amended): with a strictly increasing time trace and
`t_start ≥ t_end`, the index window is empty, so the function fails before
either `curve_fit` call is reached — but with the `ValueError` of `np.max`
over an empty slice, not with a dedicated invalid-range error. -/
theorem snr_invalid_range_behaviour (fitL fitG : CurveFit) (td sd nd : List ℚ)
    (tr : ℚ × ℚ) (shape : String) (z : Bool) (hne : td ≠ [])
    (hmono : List.Pairwise (· < ·) td) (hr : tr.2 ≤ tr.1) :
    snr fitL fitG td sd nd tr shape z = .error .emptyMax := by
  have hidx : argmin_abs td tr.2 ≤ argmin_abs td tr.1 :=
    argmin_abs_mono td hne hmono hr
  have hy : y_data sd td tr = [] := pySlice_eq_nil _ hidx
  simp only [snr, hy]
  rfl

/-- Witness for `snr_invalid_range_behaviour` with degenerate range
`(3, 3)`. -/
theorem snr_invalid_range_behaviour_witness :
    snr failFit failFit [0, 1, 2, 3, 4] [0, 1, 5, 1, 0] [0, 1, 0, 1, 0]
      (3, 3) "gaussian" true = .error .emptyMax :=
  snr_invalid_range_behaviour failFit failFit [0, 1, 2, 3, 4]
    [0, 1, 5, 1, 0] [0, 1, 0, 1, 0] (3, 3) "gaussian" true (by decide)
    (by with_unfolding_all decide) (by with_unfolding_all decide)

/-- C5 counterexample: nothing prevents a fit from returning a negative
height (for example an inverted peak fits a negative-height line shape
exactly); on such a run the function successfully returns a strictly
negative finite SNR, refuting the claim that every successful invocation
returns a non-negative value. -/
theorem snr_negative_result_counterexample :
    snr (constFit ⟨2, 1, -5⟩) (constFit ⟨2, 1, -5⟩) [0, 1, 2, 3, 4]
      [0, -1, -5, -1, 0] [0, 1, 0, 1, 0] (1, 4) "gaussian" true =
      .ok (.finite (-10)) ∧ (-10 : ℚ) < 0 := by
  constructor
  · with_unfolding_all decide
  · with_unfolding_all decide

/-- C5 (amended): the finite SNR returned by a successful run is
non-negative whenever the selected fitted height is non-negative (the noise
amplitude `max - min` is always non-negative, and the `sub_zero` factor is
positive); the sign of the result is the sign of the fitted height. -/
theorem snr_nonneg_of_fitted_height_nonneg (fitL fitG : CurveFit)
    (td sd nd : List ℚ) (tr : ℚ × ℚ) (shape : String) (z : Bool)
    {ymax : ℚ} {pL pG p : FitParams} {nmax nmin : ℚ}
    (hy : listMax (y_data sd td tr) = some ymax)
    (hL : fitL (x_data td tr) (y_data sd td tr) (initial_params tr ymax) = .ok pL)
    (hG : fitG (x_data td tr) (y_data sd td tr) (initial_params tr ymax) = .ok pG)
    (hsel : selectParams pL pG shape = some p)
    (hmax : listMax (noiseWindow td nd p.max_pos |p.width|) = some nmax)
    (hmin : listMin (noiseWindow td nd p.max_pos |p.width|) = some nmin)
    (hh : 0 ≤ p.height) :
    ∀ q : ℚ, snr fitL fitG td sd nd tr shape z = .ok (.finite q) → 0 ≤ q := by
  intro q hq
  rw [snr_run fitL fitG td sd nd tr shape z hy hL hG hsel hmax hmin,
    ratioValue] at hq
  by_cases h0 : nmax - nmin = 0
  · rw [if_pos h0] at hq
    by_cases hh0 : p.height = 0 <;> simp [hh0] at hq
  · rw [if_neg h0] at hq
    simp only [Except.ok.injEq, SnrValue.finite.injEq] at hq
    have hle : nmin ≤ nmax := (listMin_spec hmin).2 nmax (listMax_spec hmax).1
    have hpos : 0 < nmax - nmin := lt_of_le_of_ne (by linarith) (Ne.symm h0)
    have hfac : (0 : ℚ) ≤ (if z then 2 else 1) := by cases z <;> norm_num
    rw [← hq]
    exact div_nonneg (mul_nonneg hfac hh) (le_of_lt hpos)

/-- Witness for `snr_nonneg_of_fitted_height_nonneg` on a concrete run with
fitted height 5 and noise amplitude 1, whose result is 10. -/
theorem snr_nonneg_of_fitted_height_nonneg_witness : (0 : ℚ) ≤ 10 := by
  refine @snr_nonneg_of_fitted_height_nonneg (constFit ⟨2, 1, 5⟩)
    (constFit ⟨2, 1, 5⟩) [0, 1, 2, 3, 4] [0, 1, 5, 1, 0] [0, 1, 0, 1, 0]
    (1, 4) "gaussian" true 5 ⟨2, 1, 5⟩ ⟨2, 1, 5⟩ ⟨2, 1, 5⟩ 1 0
    (by with_unfolding_all decide) rfl rfl rfl
    (by with_unfolding_all decide) (by with_unfolding_all decide)
    (by with_unfolding_all decide) 10 ?_
  with_unfolding_all decide

/-- C6: when the noise-window slice is constant, the function never returns
a finite value: an empty slice raises the `ValueError` of `max()`, and a
nonempty constant slice yields zero peak-to-peak amplitude, whose numpy
float division produces the infinite sentinel (`nan` in the measure-zero
sub-case of an exactly zero fitted height). -/
theorem snr_degenerate_noise (fitL fitG : CurveFit) (td sd nd : List ℚ)
    (tr : ℚ × ℚ) (shape : String) (z : Bool) {ymax : ℚ} {pL pG p : FitParams}
    (hy : listMax (y_data sd td tr) = some ymax)
    (hL : fitL (x_data td tr) (y_data sd td tr) (initial_params tr ymax) = .ok pL)
    (hG : fitG (x_data td tr) (y_data sd td tr) (initial_params tr ymax) = .ok pG)
    (hsel : selectParams pL pG shape = some p) (c : ℚ)
    (hconst : ∀ x ∈ noiseWindow td nd p.max_pos |p.width|, x = c) :
    (∀ q : ℚ, snr fitL fitG td sd nd tr shape z ≠ .ok (.finite q)) ∧
    (noiseWindow td nd p.max_pos |p.width| = [] →
      snr fitL fitG td sd nd tr shape z = .error .emptyNoise) ∧
    (noiseWindow td nd p.max_pos |p.width| ≠ [] → p.height ≠ 0 →
      snr fitL fitG td sd nd tr shape z = .ok .infinite) ∧
    (noiseWindow td nd p.max_pos |p.width| ≠ [] → p.height = 0 →
      snr fitL fitG td sd nd tr shape z = .ok .nan) := by
  by_cases hnw : noiseWindow td nd p.max_pos |p.width| = []
  · have hrun := snr_run_emptyNoise fitL fitG td sd nd tr shape z hy hL hG hsel hnw
    exact ⟨fun q h => by rw [hrun] at h; exact absurd h (by simp),
      fun _ => hrun, fun h _ => absurd hnw h, fun h _ => absurd hnw h⟩
  · obtain ⟨hmax, hmin⟩ := listMax_listMin_of_const hnw hconst
    have hrun := snr_run fitL fitG td sd nd tr shape z hy hL hG hsel hmax hmin
    have hrv : ratioValue z p.height (c - c) =
        if p.height = 0 then SnrValue.nan else SnrValue.infinite := by
      rw [ratioValue, if_pos (sub_self c)]
    refine ⟨fun q h => ?_, fun h => absurd h hnw, fun _ hh => ?_, fun _ hh => ?_⟩
    · rw [hrun, hrv] at h
      by_cases hh0 : p.height = 0 <;> simp [hh0] at h
    · rw [hrun, hrv, if_neg hh]
    · rw [hrun, hrv, if_pos hh]

/-- Witness for `snr_degenerate_noise`: a constant noise trace of value 7
with nonzero fitted height yields the infinite sentinel. -/
theorem snr_degenerate_noise_witness :
    snr (constFit ⟨2, 1, 5⟩) (constFit ⟨2, 1, 5⟩) [0, 1, 2, 3, 4]
      [0, 1, 5, 1, 0] [7, 7, 7, 7, 7] (1, 4) "gaussian" true =
      .ok .infinite := by
  refine (@snr_degenerate_noise (constFit ⟨2, 1, 5⟩) (constFit ⟨2, 1, 5⟩)
    [0, 1, 2, 3, 4] [0, 1, 5, 1, 0] [7, 7, 7, 7, 7] (1, 4) "gaussian" true
    5 ⟨2, 1, 5⟩ ⟨2, 1, 5⟩ ⟨2, 1, 5⟩ (by with_unfolding_all decide) rfl rfl rfl
    7 (by with_unfolding_all decide)).2.2.1 (by with_unfolding_all decide)
    (by with_unfolding_all decide)

/-- An unrecognised shape name misses both keys of the parameter
dictionary. -/
theorem selectParams_eq_none (pL pG : FitParams) (shape : String)
    (h1 : shape ≠ "lorentzian") (h2 : shape ≠ "gaussian") :
    selectParams pL pG shape = none := by
  have hb1 : (shape == "lorentzian") = false := beq_eq_false_iff_ne.2 h1
  have hb2 : (shape == "gaussian") = false := beq_eq_false_iff_ne.2 h2
  simp [selectParams, List.lookup, hb1, hb2]

/-- C10: with a shape name other than `"gaussian"`/`"lorentzian"`, the
function still performs both fits — a failing Gaussian fit surfaces as its
own error even though the shape name is invalid — and when both fits
succeed it fails only afterwards, with the `KeyError` of the parameter
lookup, never rejecting the name up front. -/
theorem snr_unknown_line_shape (td sd nd : List ℚ) (tr : ℚ × ℚ)
    (shape : String) (z : Bool) {ymax : ℚ}
    (hshapeL : shape ≠ "lorentzian") (hshapeG : shape ≠ "gaussian")
    (hy : listMax (y_data sd td tr) = some ymax) :
    (∀ (fitL fitG : CurveFit) (pL pG : FitParams),
      fitL (x_data td tr) (y_data sd td tr) (initial_params tr ymax) = .ok pL →
      fitG (x_data td tr) (y_data sd td tr) (initial_params tr ymax) = .ok pG →
      snr fitL fitG td sd nd tr shape z = .error (.keyError shape)) ∧
    (∀ (fitL fitG : CurveFit) (pL : FitParams) (e : Unit),
      fitL (x_data td tr) (y_data sd td tr) (initial_params tr ymax) = .ok pL →
      fitG (x_data td tr) (y_data sd td tr) (initial_params tr ymax) = .error e →
      snr fitL fitG td sd nd tr shape z = .error (.fitFailure "gaussian")) := by
  constructor
  · intro fitL fitG pL pG hfl hfg
    simp only [snr, hy, hfl, hfg,
      selectParams_eq_none pL pG shape hshapeL hshapeG]
  · intro fitL fitG pL e hfl hfg
    simp only [snr, hy, hfl, hfg]

/-- Witness for `snr_unknown_line_shape` with shape name `"voigt"`: both
fits succeeding gives the key error; a failing Gaussian fit gives the fit
error. -/
theorem snr_unknown_line_shape_witness :
    snr (constFit ⟨2, 1, 5⟩) (constFit ⟨2, 1, 5⟩) [0, 1, 2, 3, 4]
      [0, 1, 5, 1, 0] [0, 1, 0, 1, 0] (1, 4) "voigt" true =
      .error (.keyError "voigt") ∧
    snr (constFit ⟨2, 1, 5⟩) failFit [0, 1, 2, 3, 4] [0, 1, 5, 1, 0]
      [0, 1, 0, 1, 0] (1, 4) "voigt" true =
      .error (.fitFailure "gaussian") := by
  have h := @snr_unknown_line_shape [0, 1, 2, 3, 4] [0, 1, 5, 1, 0]
    [0, 1, 0, 1, 0] (1, 4) "voigt" true 5 (by decide) (by decide)
    (by with_unfolding_all decide)
  exact ⟨h.1 (constFit ⟨2, 1, 5⟩) (constFit ⟨2, 1, 5⟩) ⟨2, 1, 5⟩ ⟨2, 1, 5⟩ rfl rfl,
    h.2 (constFit ⟨2, 1, 5⟩) failFit ⟨2, 1, 5⟩ () rfl rfl⟩

end SnrModel
